import Mathlib

/-!
Verification of the adversarial-search agent in `game_agent.py`:
the three heuristic evaluators, depth-limited minimax, its alpha-beta
pruned variant, the iterative-deepening move-selection driver
`get_move`, and the timeout/cancellation discipline.

Modelling conventions:
* Python float scores are modelled as rationals extended with the two
  infinities: `float("-inf")` is `⊥`, `float("inf")` is `⊤`.
* `math.sqrt` on floats (whose IEEE-754 rounding is outside the scope of
  this embedding) is modelled by an arbitrary function parameter
  `fsqrt`; no settled claim depends on its values.
* The external `isolation.Board` collaborator is not part of
  `game_agent.py`; it is modelled from the spec (see `GameTree` and
  `HBoard`).
* The `time_left` callable handed to `get_move` is modelled as the
  stream `clock : Nat → ℚ` of values returned by its successive
  invocations; each search call threads the index of the next reading.
  Raising `Timeout` is modelled by the `Except Unit` monad.
-/

/-- A board coordinate pair; the "no move" sentinel is `(-1, -1)`. -/
abbrev Move := Int × Int

/-- Python float scores: rationals together with `float("-inf")` (`⊥`)
and `float("inf")` (`⊤`). -/
abbrev Score := WithBot (WithTop ℚ)

/-- Inject a finite rational value into `Score`. -/
def qs (q : ℚ) : Score := ((q : WithTop ℚ) : Score)

/-- The dynamically-typed value held by `overall_best_move` in
`CustomPlayer.alphabeta`: either a flat coordinate pair, or — built by
the minimizing branch at line 388 of `game_agent.py`
(`overall_best_move = next_move, overall_best_move`) — a nested tuple
of a move and a previous such value. -/
inductive MoveVal where
  | mv : Move → MoveVal
  | nest : Move → MoveVal → MoveVal
  deriving DecidableEq, Repr

/-- Modelled from the spec: the external `isolation.Board` collaborator
(spec §6) together with the agent's pluggable heuristic, as consumed by
the search engine.  `CustomPlayer.minimax` and `CustomPlayer.alphabeta`
observe a board only through `game.get_legal_moves()` (the ordered
legal moves of the board's current player), `game.forecast_move(m)`
(the child board reached by move `m`, a fresh snapshot) and
`self.score(game, self)` (the heuristic value of the board for the
searching agent).  A `GameTree` node records exactly these
observations: `score` is the heuristic value of the position and
`children` pairs each legal move, in enumeration order, with its
forecast board. -/
inductive GameTree where
  | node : Score → List (Move × GameTree) → GameTree

/-- `self.score(game, self)` at this position. -/
def GameTree.score : GameTree → Score
  | .node s _ => s

/-- `game.get_legal_moves()` of the board's current player. -/
def GameTree.legalMoves : GameTree → List Move
  | .node _ children => children.map Prod.fst

/-- Modelled from the spec: the view of the external board consumed by
the three heuristic evaluators for a fixed queried `player` (spec §6):
`get_legal_moves(player)`, `get_legal_moves(get_opponent(player))`,
`get_blank_spaces()`, `width` and `height`. -/
structure HBoard where
  width : Nat
  height : Nat
  playerMoves : List Move
  oppMoves : List Move
  blankSpaces : List Move

/-- `calc_ratio_of_moves` (`game_agent.py` lines 40-68). -/
def calc_ratio_of_moves (game : HBoard) : Score :=
  let player_factor : ℚ := 1
  let opp_factor : ℚ := 1
  let player_moves := game.playerMoves
  let opp_moves := game.oppMoves
  if opp_moves = [] then ⊤
  else if player_moves = [] then ⊥
  else qs (player_factor * player_moves.length / (opp_factor * opp_moves.length))

/-- `calc_move_diff_with_spaces` (lines 70-102). -/
def calc_move_diff_with_spaces (game : HBoard) : Score :=
  let player_factor : ℚ := 1
  let opp_factor : ℚ := 2
  let player_moves := game.playerMoves
  let opp_moves := game.oppMoves
  let open_spaces : ℚ := game.blankSpaces.length
  let total_spaces : ℚ := game.width * game.height
  if opp_moves = [] then ⊤
  else if player_moves = [] then ⊥
  else qs (player_factor * player_moves.length * (total_spaces / open_spaces)
            - opp_factor * opp_moves.length)

/-- `calc_move_diff_from_center` (lines 104-146).  `math.sqrt` is
modelled by the parameter `fsqrt`. -/
def calc_move_diff_from_center (fsqrt : ℚ → ℚ) (game : HBoard) : Score :=
  let player_factor : ℚ := 1
  let opp_factor : ℚ := 2
  let board_center : Int × Int := (game.width / 2, game.height / 2)
  let weight : Move → ℚ := fun move =>
    if move = ((3 : Int), (3 : Int)) then 1
    else 1 - fsqrt (((board_center.1 - move.1) ^ 2 + (board_center.2 - move.2) ^ 2 : Int) : ℚ)
              / game.width
  let player_moves := game.playerMoves
  let player_score : ℚ := player_moves.foldl (fun acc move => acc + weight move) 0
  let opp_moves := game.oppMoves
  let opp_score : ℚ := opp_moves.foldl (fun acc move => acc + weight move) 0
  if opp_moves = [] then ⊤
  else if player_moves = [] then ⊥
  else qs (player_factor * player_score - opp_factor * opp_score)

/-- The body of the `for next_move in possible_moves` loop of
`CustomPlayer.minimax` (lines 312-323), with the depth-decremented
recursive call abstracted as `recFn`. -/
def minimaxLoop (recFn : GameTree → Bool → Score × Move) (maximizing_player : Bool) :
    Score → Move → List (Move × GameTree) → Score × Move
  | highest_move_diff, overall_best_move, [] => (highest_move_diff, overall_best_move)
  | highest_move_diff, overall_best_move, (next_move, temp_board) :: rest =>
    let curr_move_diff := (recFn temp_board (!maximizing_player)).1
    if maximizing_player then
      if highest_move_diff < curr_move_diff then
        minimaxLoop recFn maximizing_player curr_move_diff next_move rest
      else
        minimaxLoop recFn maximizing_player highest_move_diff overall_best_move rest
    else
      if curr_move_diff < highest_move_diff then
        minimaxLoop recFn maximizing_player curr_move_diff next_move rest
      else
        minimaxLoop recFn maximizing_player highest_move_diff overall_best_move rest

/-- `CustomPlayer.minimax` (lines 269-323) in the case in which no
timeout is raised (the `time_left` guard passes at every entry; see
`minimaxT` for the timed version). -/
def minimax (game : GameTree) (depth : Nat) (maximizing_player : Bool) : Score × Move :=
  match depth, game with
  | 0, .node s _ => (s, (-1, -1))
  | d + 1, .node s possible_moves =>
    if possible_moves.isEmpty then (s, (-1, -1))
    else
      minimaxLoop (fun t b => minimax t d b) maximizing_player
        (if maximizing_player then ⊥ else ⊤) (-1, -1) possible_moves

/-- The body of the `for next_move in possible_moves` loop of
`CustomPlayer.alphabeta` (lines 375-392), with the depth-decremented
recursive call abstracted as `recFn`.  Note the maximizing branch: on
`highest_move_diff >= beta` it returns `(curr_move_diff, next_move)`
immediately; the minimizing branch nests
`overall_best_move = next_move, overall_best_move`. -/
def alphabetaLoop (recFn : GameTree → Score → Score → Bool → Score × MoveVal)
    (maximizing_player : Bool) :
    Score → Score → Score → MoveVal → List (Move × GameTree) → Score × MoveVal
  | _, _, highest_move_diff, overall_best_move, [] => (highest_move_diff, overall_best_move)
  | alpha, beta, highest_move_diff, overall_best_move, (next_move, temp_board) :: rest =>
    let curr_move_diff := (recFn temp_board alpha beta (!maximizing_player)).1
    if maximizing_player then
      let highest' := if highest_move_diff < curr_move_diff then curr_move_diff
                      else highest_move_diff
      let best' := if highest_move_diff < curr_move_diff then MoveVal.mv next_move
                   else overall_best_move
      if beta ≤ highest' then (curr_move_diff, MoveVal.mv next_move)
      else alphabetaLoop recFn maximizing_player (max alpha curr_move_diff) beta highest' best' rest
    else
      let highest' := if curr_move_diff < highest_move_diff then curr_move_diff
                      else highest_move_diff
      let best' := if curr_move_diff < highest_move_diff then
                     MoveVal.nest next_move overall_best_move
                   else overall_best_move
      if highest' ≤ alpha then (curr_move_diff, MoveVal.mv next_move)
      else alphabetaLoop recFn maximizing_player alpha (min beta curr_move_diff) highest' best' rest

/-- `CustomPlayer.alphabeta` (lines 325-392) in the case in which no
timeout is raised (see `alphabetaT` for the timed version).  The Python
defaults are `alpha = float("-inf")`, `beta = float("inf")`,
`maximizing_player = True`. -/
def alphabeta (game : GameTree) (depth : Nat) (alpha beta : Score) (maximizing_player : Bool) :
    Score × MoveVal :=
  match depth, game with
  | 0, .node s _ => (s, .mv (-1, -1))
  | d + 1, .node s possible_moves =>
    if possible_moves.isEmpty then (s, .mv (-1, -1))
    else
      alphabetaLoop (fun t a b m => alphabeta t d a b m) maximizing_player alpha beta
        (if maximizing_player then ⊥ else ⊤) (.mv (-1, -1)) possible_moves

/-- The `self.method` configuration value: `'minimax'` or `'alphabeta'`
(the only values `get_move` dispatches on). -/
inductive Method where
  | minimax : Method
  | alphabeta : Method
  deriving DecidableEq, Repr

/-- The configuration held by a `CustomPlayer` (lines 178-185); the
pluggable `score_fn` is absorbed into the `GameTree` node labels. -/
structure CustomPlayer where
  search_depth : Nat
  iterative : Bool
  method : Method
  TIMER_THRESHOLD : ℚ

/-- Loop of `CustomPlayer.minimax` in the timed model: `recFn` is the
depth-decremented recursive call, threading the clock-reading index and
propagating `Timeout` (`Except.error`). -/
def minimaxTLoop
    (recFn : GameTree → Bool → Nat → Except Unit ((Score × Move) × Nat))
    (maximizing_player : Bool) :
    Score → Move → List (Move × GameTree) → Nat → Except Unit ((Score × Move) × Nat)
  | highest_move_diff, overall_best_move, [], n => .ok ((highest_move_diff, overall_best_move), n)
  | highest_move_diff, overall_best_move, (next_move, temp_board) :: rest, n =>
    match recFn temp_board (!maximizing_player) n with
    | .error e => .error e
    | .ok ((curr_move_diff, _), n') =>
      if maximizing_player then
        if highest_move_diff < curr_move_diff then
          minimaxTLoop recFn maximizing_player curr_move_diff next_move rest n'
        else
          minimaxTLoop recFn maximizing_player highest_move_diff overall_best_move rest n'
      else
        if curr_move_diff < highest_move_diff then
          minimaxTLoop recFn maximizing_player curr_move_diff next_move rest n'
        else
          minimaxTLoop recFn maximizing_player highest_move_diff overall_best_move rest n'

/-- `CustomPlayer.minimax` (lines 269-323) in the timed model.
`clock k` is the value returned by the `k`-th call of `time_left()`
during this decision, `th` is `self.TIMER_THRESHOLD` and `n` is the
index of the next reading; the guard at lines 300-301 raises `Timeout`
(`Except.error ()`) exactly when `clock n < th`, and a successful call
returns the `(score, move)` pair together with the next reading
index. -/
def minimaxT (clock : Nat → ℚ) (th : ℚ) (game : GameTree) (depth : Nat)
    (maximizing_player : Bool) (n : Nat) : Except Unit ((Score × Move) × Nat) :=
  if clock n < th then .error ()
  else
    match depth, game with
    | 0, .node s _ => .ok ((s, (-1, -1)), n + 1)
    | d + 1, .node s possible_moves =>
      if possible_moves.isEmpty then .ok ((s, (-1, -1)), n + 1)
      else
        minimaxTLoop (fun t b k => minimaxT clock th t d b k) maximizing_player
          (if maximizing_player then ⊥ else ⊤) (-1, -1) possible_moves (n + 1)

/-- Loop of `CustomPlayer.alphabeta` in the timed model. -/
def alphabetaTLoop
    (recFn : GameTree → Score → Score → Bool → Nat → Except Unit ((Score × MoveVal) × Nat))
    (maximizing_player : Bool) :
    Score → Score → Score → MoveVal → List (Move × GameTree) → Nat →
      Except Unit ((Score × MoveVal) × Nat)
  | _, _, highest_move_diff, overall_best_move, [], n =>
    .ok ((highest_move_diff, overall_best_move), n)
  | alpha, beta, highest_move_diff, overall_best_move, (next_move, temp_board) :: rest, n =>
    match recFn temp_board alpha beta (!maximizing_player) n with
    | .error e => .error e
    | .ok ((curr_move_diff, _), n') =>
      if maximizing_player then
        let highest' := if highest_move_diff < curr_move_diff then curr_move_diff
                        else highest_move_diff
        let best' := if highest_move_diff < curr_move_diff then MoveVal.mv next_move
                     else overall_best_move
        if beta ≤ highest' then .ok ((curr_move_diff, MoveVal.mv next_move), n')
        else alphabetaTLoop recFn maximizing_player (max alpha curr_move_diff) beta
               highest' best' rest n'
      else
        let highest' := if curr_move_diff < highest_move_diff then curr_move_diff
                        else highest_move_diff
        let best' := if curr_move_diff < highest_move_diff then
                       MoveVal.nest next_move overall_best_move
                     else overall_best_move
        if highest' ≤ alpha then .ok ((curr_move_diff, MoveVal.mv next_move), n')
        else alphabetaTLoop recFn maximizing_player alpha (min beta curr_move_diff)
               highest' best' rest n'

/-- `CustomPlayer.alphabeta` (lines 325-392) in the timed model; the
guard at lines 363-364 raises `Timeout` exactly when `clock n < th`. -/
def alphabetaT (clock : Nat → ℚ) (th : ℚ) (game : GameTree) (depth : Nat)
    (alpha beta : Score) (maximizing_player : Bool) (n : Nat) :
    Except Unit ((Score × MoveVal) × Nat) :=
  if clock n < th then .error ()
  else
    match depth, game with
    | 0, .node s _ => .ok ((s, .mv (-1, -1)), n + 1)
    | d + 1, .node s possible_moves =>
      if possible_moves.isEmpty then .ok ((s, .mv (-1, -1)), n + 1)
      else
        alphabetaTLoop (fun t a b m k => alphabetaT clock th t d a b m k) maximizing_player
          alpha beta (if maximizing_player then ⊥ else ⊤) (.mv (-1, -1)) possible_moves (n + 1)

/-- The `self.method` dispatch performed by `get_move` (lines 240-243 and
257-260): one top-level search call at the given depth, with the Python
default arguments `alpha = float("-inf")`, `beta = float("inf")`,
`maximizing_player = True`. -/
def searchT (p : CustomPlayer) (clock : Nat → ℚ) (game : GameTree) (depth : Nat) (n : Nat) :
    Except Unit ((Score × MoveVal) × Nat) :=
  match p.method with
  | .minimax =>
    (minimaxT clock p.TIMER_THRESHOLD game depth true n).map
      (fun r => ((r.1.1, MoveVal.mv r.1.2), r.2))
  | .alphabeta => alphabetaT clock p.TIMER_THRESHOLD game depth ⊥ ⊤ true n

/-- The `while True` iterative-deepening loop of `get_move`
(lines 236-251).  The Python loop only terminates through the `Timeout`
handler; `fuel` bounds the number of rounds the model unrolls, and the
result is `none` when no round within `fuel` was cancelled (the
situation in which the Python loop would still be running). -/
def iterDrive (p : CustomPlayer) (clock : Nat → ℚ) (game : GameTree) :
    Nat → Nat → Nat → Score → MoveVal → Option MoveVal
  | 0, _, _, _, _ => none
  | fuel + 1, curr_depth, n, best_score_overall, best_move_overall =>
    match searchT p clock game curr_depth n with
    | .error _ => some best_move_overall
    | .ok ((best_round_score, best_round_move), n') =>
      if best_score_overall < best_round_score then
        iterDrive p clock game fuel (curr_depth + 1) n' best_round_score best_round_move
      else
        iterDrive p clock game fuel (curr_depth + 1) n' best_score_overall best_move_overall

/-- Observer for the iterative-deepening loop: the `(score, move)`
results of the successive search rounds that complete without
cancellation, starting at depth `curr_depth` with clock index `n`,
before the first cancelled round (truncated at `fuel` rounds). -/
def completedRounds (p : CustomPlayer) (clock : Nat → ℚ) (game : GameTree) :
    Nat → Nat → Nat → List (Score × MoveVal)
  | 0, _, _ => []
  | fuel + 1, curr_depth, n =>
    match searchT p clock game curr_depth n with
    | .error _ => []
    | .ok (r, n') => r :: completedRounds p clock game fuel (curr_depth + 1) n'

/-- `CustomPlayer.get_move` (lines 187-267).  `legal_moves` is the list
supplied by the caller and `fuel` bounds the modelled iterative
rounds; `none` models the (non-returning) situation in which the
iterative loop is still running after `fuel` rounds. -/
def get_move (p : CustomPlayer) (clock : Nat → ℚ) (game : GameTree)
    (legal_moves : List Move) (fuel : Nat) : Option MoveVal :=
  if legal_moves = [] then some (.mv (-1, -1))
  else if p.iterative then
    iterDrive p clock game fuel 1 0 ⊥ (.mv (-1, -1))
  else
    match searchT p clock game p.search_depth 0 with
    | .error _ => some (.mv (-1, -1))
    | .ok ((_, best_move_overall), _) => some best_move_overall

/-- The "best recorded so far" bookkeeping of the iterative-deepening
driver, as the spec states it: starting from the sentinel with score
`-inf`, each completed round replaces the record exactly when its score
is strictly greater. -/
def bestOverRounds (rounds : List (Score × MoveVal)) : Score × MoveVal :=
  rounds.foldl (fun acc r => if acc.1 < r.1 then r else acc) (⊥, .mv (-1, -1))

/-- The scores reported by the recursive calls for the children of an
internal node expanded at remaining depth `d + 1` with flag `maxi`,
paired with their moves (claim C5's notion of "child score" for
`minimax`). -/
def childScores (d : Nat) (maxi : Bool) (children : List (Move × GameTree)) :
    List (Move × Score) :=
  children.map (fun c => (c.1, (minimax c.2 d (!maxi)).1))

/-- The extreme (greatest for a maximizing node, least for a minimizing
node) of a list of reported child scores, measured from the loop
initialisation value of `minimax`. -/
def bestScore (maxi : Bool) (ms : List (Move × Score)) : Score :=
  if maxi then ms.foldl (fun a c => max a c.2) ⊥ else ms.foldl (fun a c => min a c.2) ⊤

/-- The first move in enumeration order whose reported score equals `v`
(the sentinel if none does). -/
def firstBest (v : Score) (ms : List (Move × Score)) : Move :=
  match ms.find? (fun c => decide (c.2 = v)) with
  | some c => c.1
  | none => (-1, -1)

/-! ### Order helpers -/

theorem ite_lt_max (a b : Score) : (if a < b then b else a) = max a b := by
  rcases lt_or_le a b with h | h
  · simp [h, max_eq_right h.le]
  · simp [not_lt.mpr h, max_eq_left h]

theorem ite_lt_min (a b : Score) : (if b < a then b else a) = min a b := by
  rcases lt_or_le b a with h | h
  · simp [h, min_eq_right h.le]
  · simp [not_lt.mpr h, min_eq_left h]

/-! ### The minimax loop as a fold -/

theorem minimaxLoop_max_fst (recFn : GameTree → Bool → Score × Move) (h : Score) (bm : Move)
    (cs : List (Move × GameTree)) :
    (minimaxLoop recFn true h bm cs).1
      = cs.foldl (fun a c => max a (recFn c.2 false).1) h := by
  induction cs generalizing h bm with
  | nil => rfl
  | cons c rest ih =>
    obtain ⟨m, t⟩ := c
    simp only [minimaxLoop, Bool.not_true, List.foldl_cons, if_pos trivial]
    rcases lt_or_le h ((recFn t false).1) with hlt | hle
    · rw [if_pos hlt, ih, max_eq_right hlt.le]
    · rw [if_neg (not_lt.mpr hle), ih, max_eq_left hle]

theorem minimaxLoop_min_fst (recFn : GameTree → Bool → Score × Move) (h : Score) (bm : Move)
    (cs : List (Move × GameTree)) :
    (minimaxLoop recFn false h bm cs).1
      = cs.foldl (fun a c => min a (recFn c.2 true).1) h := by
  induction cs generalizing h bm with
  | nil => rfl
  | cons c rest ih =>
    obtain ⟨m, t⟩ := c
    simp only [minimaxLoop, Bool.not_false, List.foldl_cons, if_neg Bool.false_ne_true]
    rcases lt_or_le ((recFn t true).1) h with hlt | hle
    · rw [if_pos hlt, ih, min_eq_right hlt.le]
    · rw [if_neg (not_lt.mpr hle), ih, min_eq_left hle]

theorem le_foldl_max (f : Move × GameTree → Score) (h : Score) (cs : List (Move × GameTree)) :
    h ≤ cs.foldl (fun a c => max a (f c)) h := by
  induction cs generalizing h with
  | nil => exact le_refl h
  | cons c rest ih => exact le_trans (le_max_left _ _) (ih (max h (f c)))

theorem foldl_min_le (f : Move × GameTree → Score) (h : Score) (cs : List (Move × GameTree)) :
    cs.foldl (fun a c => min a (f c)) h ≤ h := by
  induction cs generalizing h with
  | nil => exact le_refl h
  | cons c rest ih => exact le_trans (ih (min h (f c))) (min_le_left _ _)

theorem minimaxLoop_cons_max (recFn : GameTree → Bool → Score × Move) (h : Score) (bm m : Move)
    (t : GameTree) (rest : List (Move × GameTree)) :
    minimaxLoop recFn true h bm ((m, t) :: rest)
      = minimaxLoop recFn true (max h (recFn t false).1)
          (if h < (recFn t false).1 then m else bm) rest := by
  simp only [minimaxLoop, Bool.not_true, if_pos trivial]
  rcases lt_or_le h ((recFn t false).1) with hlt | hle
  · rw [if_pos hlt, if_pos hlt, max_eq_right hlt.le]
  · rw [if_neg (not_lt.mpr hle), if_neg (not_lt.mpr hle), max_eq_left hle]

theorem minimaxLoop_cons_min (recFn : GameTree → Bool → Score × Move) (h : Score) (bm m : Move)
    (t : GameTree) (rest : List (Move × GameTree)) :
    minimaxLoop recFn false h bm ((m, t) :: rest)
      = minimaxLoop recFn false (min h (recFn t true).1)
          (if (recFn t true).1 < h then m else bm) rest := by
  simp only [minimaxLoop, Bool.not_false, if_neg Bool.false_ne_true]
  rcases lt_or_le ((recFn t true).1) h with hlt | hle
  · rw [if_pos hlt, if_pos hlt, min_eq_right hlt.le]
  · rw [if_neg (not_lt.mpr hle), if_neg (not_lt.mpr hle), min_eq_left hle]

/-! ### Alpha-beta returns the minimax score (Knuth-Moore style argument)

The running invariant ties the alpha-beta loop state to the plain
minimax loop state through the clamp `min beta (max alpha _)` of the
node's window. -/

theorem alphabetaLoop_clamp_max
    (recAB : GameTree → Score → Score → Bool → Score × MoveVal)
    (recMM : GameTree → Bool → Score × Move)
    (hrec : ∀ t a b flag, a < b →
      min b (max a (recAB t a b flag).1) = min b (max a (recMM t flag).1))
    (bet al : Score) (hab : al < bet) :
    ∀ (cs : List (Move × GameTree)) (hb' hb : Score) (bm' : MoveVal) (bm : Move),
      hb' < bet → hb < bet → max al hb = max al hb' →
      min bet (max al (alphabetaLoop recAB true (max al hb') bet hb' bm' cs).1)
        = min bet (max al (minimaxLoop recMM true hb bm cs).1) := by
  intro cs
  induction cs with
  | nil =>
    intro hb' hb bm' bm h2 h4 h3
    simp only [alphabetaLoop, minimaxLoop]
    rw [h3]
  | cons c rest ih =>
    intro hb' hb bm' bm h2 h4 h3
    obtain ⟨m, t⟩ := c
    have habet : max al hb' < bet := max_lt hab h2
    have hcl := hrec t (max al hb') bet false habet
    rw [minimaxLoop_cons_max]
    simp only [alphabetaLoop, Bool.not_true, if_pos trivial]
    rw [ite_lt_max hb' ((recAB t (max al hb') bet false).1)]
    set c' := (recAB t (max al hb') bet false).1 with hc'def
    set cm := (recMM t false).1 with hcmdef
    rcases le_or_lt bet (max hb' c') with hcut | hncut
    · rw [if_pos hcut]
      dsimp only
      have hc'bet : bet ≤ c' := by
        rcases le_or_lt c' hb' with hle | hlt
        · exact absurd (le_trans hcut (max_le (le_refl _) hle)) (not_le.mpr h2)
        · rwa [max_eq_right hlt.le] at hcut
      have h5 : min bet (max (max al hb') c') = bet :=
        min_eq_left (le_trans hc'bet (le_max_right _ _))
      rw [hcl] at h5
      have h6 : bet ≤ cm := by
        rcases le_max_iff.mp (min_eq_left_iff.mp h5) with h7 | h7
        · exact absurd h7 (not_le.mpr habet)
        · exact h7
      have hV : bet ≤ (minimaxLoop recMM true (max hb cm) (if hb < cm then m else bm) rest).1 := by
        rw [minimaxLoop_max_fst]
        exact le_trans (le_trans h6 (le_max_right hb cm)) (le_foldl_max _ _ _)
      rw [min_eq_left (le_trans hc'bet (le_max_right _ _)),
        min_eq_left (le_trans hV (le_max_right _ _))]
    · rw [if_neg (not_le.mpr hncut)]
      have hc'bet : c' < bet := lt_of_le_of_lt (le_max_right hb' c') hncut
      have hE0 : max (max al hb') c' = max al (max hb' c') := max_assoc al hb' c'
      have hMac' : max (max al hb') c' < bet := by rw [hE0]; exact max_lt hab hncut
      have h5 : min bet (max (max al hb') c') = max (max al hb') c' := min_eq_right hMac'.le
      rw [hcl] at h5
      have hMacm : max (max al hb') cm < bet := by
        by_contra hcon
        push_neg at hcon
        rw [min_eq_left hcon] at h5
        exact absurd h5.symm (ne_of_lt hMac')
      have hE1 : max (max al hb') cm = max (max al hb') c' := by
        rw [min_eq_right hMacm.le] at h5
        exact h5
      have hcmbet : cm < bet := lt_of_le_of_lt (le_max_right _ _) hMacm
      have hJ3 : max al (max hb cm) = max al (max hb' c') := by
        rw [← max_assoc, h3, hE1, max_assoc]
      rw [hE0]
      exact ih (max hb' c') (max hb cm) (if hb' < c' then MoveVal.mv m else bm')
        (if hb < cm then m else bm) hncut (max_lt h4 hcmbet) hJ3

theorem alphabetaLoop_clamp_min
    (recAB : GameTree → Score → Score → Bool → Score × MoveVal)
    (recMM : GameTree → Bool → Score × Move)
    (hrec : ∀ t a b flag, a < b →
      min b (max a (recAB t a b flag).1) = min b (max a (recMM t flag).1))
    (bet al : Score) (hab : al < bet) :
    ∀ (cs : List (Move × GameTree)) (lb' lb : Score) (bm' : MoveVal) (bm : Move),
      al < lb' → al < lb → min bet lb = min bet lb' →
      min bet (max al (alphabetaLoop recAB false al (min bet lb') lb' bm' cs).1)
        = min bet (max al (minimaxLoop recMM false lb bm cs).1) := by
  intro cs
  induction cs with
  | nil =>
    intro lb' lb bm' bm h2 h4 h3
    simp only [alphabetaLoop, minimaxLoop]
    rw [max_eq_right h2.le, max_eq_right h4.le, h3]
  | cons c rest ih =>
    intro lb' lb bm' bm h2 h4 h3
    obtain ⟨m, t⟩ := c
    have habet : al < min bet lb' := lt_min hab h2
    have hcl := hrec t al (min bet lb') true habet
    rw [minimaxLoop_cons_min]
    simp only [alphabetaLoop, Bool.not_false, if_neg Bool.false_ne_true]
    rw [ite_lt_min lb' ((recAB t al (min bet lb') true).1)]
    set c' := (recAB t al (min bet lb') true).1 with hc'def
    set cm := (recMM t true).1 with hcmdef
    rcases le_or_lt (min lb' c') al with hcut | hncut
    · rw [if_pos hcut]
      dsimp only
      have hc'al : c' ≤ al := by
        rcases min_le_iff.mp hcut with h | h
        · exact absurd h (not_le.mpr h2)
        · exact h
      have h5 : min (min bet lb') (max al c') = al := by
        rw [max_eq_left hc'al]
        exact min_eq_right habet.le
      rw [hcl] at h5
      have hcmal : cm ≤ al := by
        by_contra hcon
        push_neg at hcon
        rw [max_eq_right hcon.le] at h5
        exact absurd h5 (ne_of_gt (lt_min habet hcon))
      have hV : (minimaxLoop recMM false (min lb cm) (if cm < lb then m else bm) rest).1 ≤ al := by
        rw [minimaxLoop_min_fst]
        exact le_trans (foldl_min_le _ _ _) (le_trans (min_le_right lb cm) hcmal)
      rw [max_eq_left hc'al, max_eq_left hV, min_eq_right hab.le]
    · rw [if_neg (not_le.mpr hncut)]
      have halc' : al < c' := lt_of_lt_of_le hncut (min_le_right lb' c')
      have hE0 : min (min bet lb') c' = min bet (min lb' c') := min_assoc bet lb' c'
      have hMac' : al < min (min bet lb') c' := by rw [hE0]; exact lt_min hab hncut
      have h5 : min (min bet lb') (max al c') = min (min bet lb') c' := by
        rw [max_eq_right halc'.le]
      rw [hcl] at h5
      have halcm : al < cm := by
        by_contra hcon
        push_neg at hcon
        rw [max_eq_left hcon, min_eq_right habet.le] at h5
        exact absurd h5.symm (ne_of_gt hMac')
      have hE1 : min (min bet lb') cm = min (min bet lb') c' := by
        rw [max_eq_right halcm.le] at h5
        exact h5
      have hJ3 : min bet (min lb cm) = min bet (min lb' c') := by
        rw [← min_assoc, h3, hE1, min_assoc]
      rw [hE0]
      exact ih (min lb' c') (min lb cm) (if c' < lb' then MoveVal.nest m bm' else bm')
        (if cm < lb then m else bm) hncut (lt_min h4 halcm) hJ3

theorem alphabeta_clamp (depth : Nat) :
    ∀ (game : GameTree) (al bet : Score) (maxi : Bool), al < bet →
      min bet (max al (alphabeta game depth al bet maxi).1)
        = min bet (max al (minimax game depth maxi).1) := by
  induction depth with
  | zero =>
    intro g al bet maxi hab
    cases g with
    | node s cs => simp [alphabeta, minimax]
  | succ d ih =>
    intro g al bet maxi hab
    cases g with
    | node s cs =>
      by_cases hemp : cs.isEmpty
      · simp [alphabeta, minimax, hemp]
      · cases maxi with
        | true =>
          have hstep := alphabetaLoop_clamp_max (fun t a b m => alphabeta t d a b m)
            (fun t b => minimax t d b) (fun t a b flag h => ih t a b flag h) bet al hab cs
            ⊥ ⊥ (.mv (-1, -1)) (-1, -1) (lt_of_le_of_lt bot_le hab)
            (lt_of_le_of_lt bot_le hab) rfl
          rw [max_eq_left bot_le] at hstep
          simpa [alphabeta, minimax, hemp] using hstep
        | false =>
          have hstep := alphabetaLoop_clamp_min (fun t a b m => alphabeta t d a b m)
            (fun t b => minimax t d b) (fun t a b flag h => ih t a b flag h) bet al hab cs
            ⊤ ⊤ (.mv (-1, -1)) (-1, -1) (lt_of_lt_of_le hab le_top)
            (lt_of_lt_of_le hab le_top) rfl
          rw [min_eq_left le_top] at hstep
          simpa [alphabeta, minimax, hemp] using hstep

/-- **C1.** For every board (and hence every heuristic labelling) and
every depth `d ≥ 0`, when no timeout is raised, `CustomPlayer.minimax`
and `CustomPlayer.alphabeta` — called as `get_move` calls them, with
initial `alpha = float("-inf")`, `beta = float("inf")` and
`maximizing_player = True` — return the identical score. -/
theorem claim_C1_alphabeta_score_equals_minimax (game : GameTree) (depth : Nat) :
    (alphabeta game depth ⊥ ⊤ true).1 = (minimax game depth true).1 := by
  have h := alphabeta_clamp depth game ⊥ ⊤ true (lt_of_le_of_lt bot_le
    (by exact WithBot.bot_lt_coe _))
  rwa [max_eq_right bot_le, max_eq_right bot_le, min_eq_right le_top,
    min_eq_right le_top] at h

/-! ### Heuristic extreme values (C2) -/

/-- **C2 (amended).** Each of the three heuristics returns the positive
score extreme whenever the opponent of `player` has zero legal moves,
regardless of `player`'s own mobility; and it returns the negative
score extreme whenever `player` has zero legal moves *and the opponent
has at least one* (when both sides are blocked the opponent-blocked
check fires first, so the positive extreme is returned). -/
theorem claim_C2_heuristic_extremes_amended (fsqrt : ℚ → ℚ) (b : HBoard) :
    (b.oppMoves = [] →
      calc_ratio_of_moves b = ⊤ ∧ calc_move_diff_with_spaces b = ⊤ ∧
        calc_move_diff_from_center fsqrt b = ⊤) ∧
    (b.playerMoves = [] → b.oppMoves ≠ [] →
      calc_ratio_of_moves b = ⊥ ∧ calc_move_diff_with_spaces b = ⊥ ∧
        calc_move_diff_from_center fsqrt b = ⊥) := by
  constructor
  · intro h
    refine ⟨?_, ?_, ?_⟩ <;>
      simp [calc_ratio_of_moves, calc_move_diff_with_spaces, calc_move_diff_from_center, h]
  · intro hp ho
    refine ⟨?_, ?_, ?_⟩ <;>
      simp [calc_ratio_of_moves, calc_move_diff_with_spaces, calc_move_diff_from_center, hp, ho]

theorem claim_C2_heuristic_extremes_amended_witness :
    calc_ratio_of_moves (HBoard.mk 7 7 [((0 : Int), (0 : Int))] [] []) = ⊤ ∧
    calc_ratio_of_moves (HBoard.mk 7 7 [] [((0 : Int), (0 : Int))] []) = ⊥ := by
  have h1 := (claim_C2_heuristic_extremes_amended (fun q => q)
    (HBoard.mk 7 7 [((0 : Int), (0 : Int))] [] [])).1 rfl
  have h2 := (claim_C2_heuristic_extremes_amended (fun q => q)
    (HBoard.mk 7 7 [] [((0 : Int), (0 : Int))] [])).2 rfl (by decide)
  exact ⟨h1.1, h2.1⟩

/-- **C2 counterexample.** On a board where *both* the player and the
opponent have zero legal moves, all three heuristics return the
positive extreme (the opponent-blocked check at lines 63, 97 and 141
fires first), not the negative extreme that the claim requires
"whenever player has zero legal moves, regardless of the opponent's
mobility". -/
theorem claim_C2_counterexample :
    (HBoard.mk 7 7 [] [] []).playerMoves = [] ∧
    calc_ratio_of_moves (HBoard.mk 7 7 [] [] []) = ⊤ ∧
    calc_move_diff_with_spaces (HBoard.mk 7 7 [] [] []) = ⊤ ∧
    calc_move_diff_from_center (fun q => q) (HBoard.mk 7 7 [] [] []) = ⊤ ∧
    (⊤ : Score) ≠ ⊥ := by
  refine ⟨rfl, by decide, by decide, by decide, by decide⟩

/-! ### The empty-move fast path (C9) -/

/-- **C9.** `get_move` called with an empty legal-move list returns the
sentinel `(-1, -1)` immediately, for every configuration, clock and
board — in particular the result does not depend on the game tree or on
the clock at all, so no search is invoked and no heuristic is ever
evaluated. -/
theorem claim_C9_empty_legal_moves_sentinel (p : CustomPlayer) (clock : Nat → ℚ)
    (game : GameTree) (fuel : Nat) :
    get_move p clock game [] fuel = some (.mv (-1, -1)) := rfl

/-- **C10 (evaluation at the failing inputs).** Two closed evaluations
showing the invariant broken: a depth-1 maximizing search over one
legal move whose child heuristic is the negative extreme returns the
sentinel `(-1, -1)` (not a legal move) from both `minimax` and
`alphabeta`; and a depth-1 minimizing `alphabeta` call with two
improving children returns a nested tuple instead of a flat coordinate
pair. -/
theorem claim_C10_flat_legal_move_eval :
    minimax (.node (qs 0) [(((0 : Int), (0 : Int)), .node ⊥ [])]) 1 true = (⊥, (-1, -1)) ∧
    alphabeta (.node (qs 0) [(((0 : Int), (0 : Int)), .node ⊥ [])]) 1 ⊥ ⊤ true
      = (⊥, .mv (-1, -1)) ∧
    alphabeta (.node (qs 0) [(((0 : Int), (0 : Int)), .node (qs 5) []),
        (((1 : Int), (1 : Int)), .node (qs 3) [])]) 1 ⊥ ⊤ false
      = (qs 3, .nest (1, 1) (.nest (0, 0) (.mv (-1, -1)))) := by
  refine ⟨by decide, by decide, by decide⟩

/-! ### Alpha-beta cutoff behaviour (C4) -/

/-- **C4.** In `alphabeta`, when at a maximizing node the running best
score — after the update from the current child — reaches or exceeds
`beta` (mirror: at a minimizing node reaches or falls below `alpha`),
the loop returns immediately with the current child's score and the
move that triggered the cutoff, for *every* remaining-children list
(so the remaining children are never expanded). -/
theorem claim_C4_alphabeta_cutoff
    (recFn : GameTree → Score → Score → Bool → Score × MoveVal)
    (alpha beta highest : Score) (best : MoveVal) (next_move : Move) (t : GameTree)
    (rest : List (Move × GameTree)) :
    (beta ≤ max highest (recFn t alpha beta false).1 →
      alphabetaLoop recFn true alpha beta highest best ((next_move, t) :: rest)
        = ((recFn t alpha beta false).1, .mv next_move)) ∧
    (min highest (recFn t alpha beta true).1 ≤ alpha →
      alphabetaLoop recFn false alpha beta highest best ((next_move, t) :: rest)
        = ((recFn t alpha beta true).1, .mv next_move)) := by
  constructor
  · intro h
    simp only [alphabetaLoop, Bool.not_true, if_pos trivial]
    rw [ite_lt_max highest ((recFn t alpha beta false).1), if_pos h]
  · intro h
    simp only [alphabetaLoop, Bool.not_false, if_neg Bool.false_ne_true]
    rw [ite_lt_min highest ((recFn t alpha beta true).1), if_pos h]

theorem claim_C4_alphabeta_cutoff_witness :
    alphabetaLoop (fun _ _ _ _ => (qs 9, .mv (5, 5))) true ⊥ (qs 7) ⊥ (.mv (-1, -1))
        [(((2 : Int), (3 : Int)), .node (qs 0) []), (((4 : Int), (4 : Int)), .node (qs 0) [])]
      = (qs 9, .mv (2, 3)) ∧
    alphabetaLoop (fun _ _ _ _ => (qs 1, .mv (5, 5))) false (qs 2) ⊤ ⊤ (.mv (-1, -1))
        [(((2 : Int), (3 : Int)), .node (qs 0) []), (((4 : Int), (4 : Int)), .node (qs 0) [])]
      = (qs 1, .mv (2, 3)) := by
  constructor
  · exact (claim_C4_alphabeta_cutoff (fun _ _ _ _ => (qs 9, .mv (5, 5))) ⊥ (qs 7) ⊥
      (.mv (-1, -1)) (2, 3) (.node (qs 0) [])
      [(((4 : Int), (4 : Int)), .node (qs 0) [])]).1 (by decide)
  · exact (claim_C4_alphabeta_cutoff (fun _ _ _ _ => (qs 1, .mv (5, 5))) (qs 2) ⊤ ⊤
      (.mv (-1, -1)) (2, 3) (.node (qs 0) [])
      [(((4 : Int), (4 : Int)), .node (qs 0) [])]).2 (by decide)

/-! ### Terminal positions (C6) -/

/-- **C6.** When `minimax` or `alphabeta` is called with remaining depth
0, or on a board whose current player has no legal moves, and the
timeout has not expired, it returns the heuristic score of the position
paired with the sentinel `(-1, -1)`; the returned clock index `n + 1`
records that exactly one `time_left()` reading was consumed, i.e. no
child board was forecast or recursed into. -/
theorem claim_C6_terminal_returns_heuristic (clock : Nat → ℚ) (th : ℚ) (s : Score)
    (cs : List (Move × GameTree)) (alpha beta : Score) (maxi : Bool) (n depth : Nat)
    (hok : th ≤ clock n) :
    (minimaxT clock th (.node s cs) 0 maxi n = .ok ((s, (-1, -1)), n + 1)
      ∧ alphabetaT clock th (.node s cs) 0 alpha beta maxi n = .ok ((s, .mv (-1, -1)), n + 1))
    ∧ (cs = [] →
        minimaxT clock th (.node s cs) depth maxi n = .ok ((s, (-1, -1)), n + 1)
          ∧ alphabetaT clock th (.node s cs) depth alpha beta maxi n
              = .ok ((s, .mv (-1, -1)), n + 1)) := by
  constructor
  · exact ⟨by simp [minimaxT, not_lt.mpr hok], by simp [alphabetaT, not_lt.mpr hok]⟩
  · intro hcs
    subst hcs
    cases depth with
    | zero => exact ⟨by simp [minimaxT, not_lt.mpr hok], by simp [alphabetaT, not_lt.mpr hok]⟩
    | succ d => exact ⟨by simp [minimaxT, not_lt.mpr hok], by simp [alphabetaT, not_lt.mpr hok]⟩

theorem claim_C6_terminal_returns_heuristic_witness :
    minimaxT (fun _ => 10) 1 (.node (qs 4) [(((0 : Int), (0 : Int)), .node (qs 5) [])]) 0 true 0
      = .ok ((qs 4, (-1, -1)), 1) ∧
    alphabetaT (fun _ => 10) 1 (.node (qs 4) []) 3 ⊥ ⊤ true 7
      = .ok ((qs 4, .mv (-1, -1)), 8) := by
  constructor
  · exact (claim_C6_terminal_returns_heuristic (fun _ => 10) 1 (qs 4)
      [(((0 : Int), (0 : Int)), .node (qs 5) [])] ⊥ ⊤ true 0 0 (by decide)).1.1
  · exact ((claim_C6_terminal_returns_heuristic (fun _ => 10) 1 (qs 4)
      [] ⊥ ⊤ true 7 3 (by decide)).2 rfl).2

/-! ### The iterative-deepening driver (C3) -/

theorem iterDrive_eq_fold (p : CustomPlayer) (clock : Nat → ℚ) (game : GameTree) :
    ∀ (fuel curr_depth n : Nat) (bs : Score) (bmv : MoveVal),
      (completedRounds p clock game fuel curr_depth n).length < fuel →
      iterDrive p clock game fuel curr_depth n bs bmv
        = some ((completedRounds p clock game fuel curr_depth n).foldl
            (fun acc r => if acc.1 < r.1 then r else acc) (bs, bmv)).2 := by
  intro fuel
  induction fuel with
  | zero =>
    intro cd n bs bmv h
    exact absurd h (Nat.not_lt_zero _)
  | succ f ih =>
    intro cd n bs bmv h
    cases hs : searchT p clock game cd n with
    | error e =>
      simp [iterDrive, completedRounds, hs]
    | ok r =>
      obtain ⟨⟨rs, rm⟩, n'⟩ := r
      simp only [completedRounds, hs, List.length_cons] at h
      have h' : (completedRounds p clock game f (cd + 1) n').length < f :=
        Nat.lt_of_succ_lt_succ h
      simp only [iterDrive, completedRounds, hs, List.foldl_cons]
      rcases lt_or_le bs rs with hlt | hle
      · rw [if_pos hlt, ih (cd + 1) n' rs rm h']
        simp [hlt]
      · rw [if_neg (not_lt.mpr hle), ih (cd + 1) n' bs bmv h']
        simp [not_lt.mpr hle]

/-- **C3.** In iterative-deepening mode (`legal_moves` nonempty,
`p.iterative = true`), provided a round is cancelled before the model's
round bound `fuel` runs out, `get_move` starts at depth 1 and returns
the move of the record obtained by folding, over the successive rounds
that completed without cancellation (in depth order 1, 2, ...), the
update that replaces the overall best `(score, move)` exactly when the
round's top score is strictly greater — starting from the sentinel
`(-1, -1)` with score `-inf`.  In particular the loop stops at the
first cancellation, and if no depth ever completes the fold is empty
and the sentinel is returned. -/
theorem claim_C3_iterative_deepening (p : CustomPlayer) (clock : Nat → ℚ) (game : GameTree)
    (legal_moves : List Move) (fuel : Nat)
    (hlm : legal_moves ≠ [])
    (hiter : p.iterative = true)
    (hstop : (completedRounds p clock game fuel 1 0).length < fuel) :
    get_move p clock game legal_moves fuel
      = some (bestOverRounds (completedRounds p clock game fuel 1 0)).2 := by
  unfold get_move bestOverRounds
  rw [if_neg hlm, hiter, if_pos rfl]
  exact iterDrive_eq_fold p clock game fuel 1 0 ⊥ (.mv (-1, -1)) hstop

theorem claim_C3_iterative_deepening_witness :
    get_move ⟨3, true, .minimax, 1⟩ (fun k => if k < 2 then 10 else 0)
      (.node (qs 0) [(((0 : Int), (0 : Int)), .node (qs 5) [])]) [(0, 0)] 3
      = some (.mv (0, 0)) := by
  have h := claim_C3_iterative_deepening ⟨3, true, .minimax, 1⟩
    (fun k => if k < 2 then 10 else 0)
    (.node (qs 0) [(((0 : Int), (0 : Int)), .node (qs 5) [])]) [(0, 0)] 3
    (by decide) rfl (by decide)
  rw [h]
  decide

/-! ### Strict-comparison move selection (C5) -/

theorem firstBest_cons_ne (v c0 : Score) (m : Move) (ms : List (Move × Score)) (h : c0 ≠ v) :
    firstBest v ((m, c0) :: ms) = firstBest v ms := by
  unfold firstBest
  rw [List.find?_cons_of_neg]
  simpa using h

theorem firstBest_cons_eq (v c0 : Score) (m : Move) (ms : List (Move × Score)) (h : c0 = v) :
    firstBest v ((m, c0) :: ms) = m := by
  unfold firstBest
  rw [List.find?_cons_of_pos]
  simpa using h

theorem minimaxLoop_max_snd (recFn : GameTree → Bool → Score × Move) :
    ∀ (cs : List (Move × GameTree)) (h : Score) (bm : Move),
      (minimaxLoop recFn true h bm cs).2
        = if h < cs.foldl (fun a c => max a (recFn c.2 false).1) h
          then firstBest (cs.foldl (fun a c => max a (recFn c.2 false).1) h)
                 (cs.map (fun c => (c.1, (recFn c.2 false).1)))
          else bm := by
  intro cs
  induction cs with
  | nil =>
    intro h bm
    simp [minimaxLoop]
  | cons c rest ih =>
    intro h bm
    obtain ⟨m, t⟩ := c
    rw [minimaxLoop_cons_max, ih]
    simp only [List.foldl_cons, List.map_cons]
    have hle : max h ((recFn t false).1)
        ≤ rest.foldl (fun a c => max a (recFn c.2 false).1) (max h ((recFn t false).1)) :=
      le_foldl_max _ _ _
    rcases lt_or_le (max h ((recFn t false).1))
        (rest.foldl (fun a c => max a (recFn c.2 false).1) (max h ((recFn t false).1)))
      with hltM | hgeM
    · have hhM : h < rest.foldl (fun a c => max a (recFn c.2 false).1)
          (max h ((recFn t false).1)) := lt_of_le_of_lt (le_max_left _ _) hltM
      have hc0M : (recFn t false).1
          ≠ rest.foldl (fun a c => max a (recFn c.2 false).1) (max h ((recFn t false).1)) :=
        ne_of_lt (lt_of_le_of_lt (le_max_right _ _) hltM)
      rw [if_pos hltM, if_pos hhM, firstBest_cons_ne _ _ _ _ hc0M]
    · have hMeq : rest.foldl (fun a c => max a (recFn c.2 false).1) (max h ((recFn t false).1))
          = max h ((recFn t false).1) := le_antisymm hgeM hle
      rw [if_neg (not_lt.mpr hgeM)]
      rcases lt_or_le h ((recFn t false).1) with hc | hc
      · have hMc0 : rest.foldl (fun a c => max a (recFn c.2 false).1)
            (max h ((recFn t false).1)) = (recFn t false).1 := by
          rw [hMeq, max_eq_right hc.le]
        have hhM : h < rest.foldl (fun a c => max a (recFn c.2 false).1)
            (max h ((recFn t false).1)) := by rw [hMc0]; exact hc
        rw [if_pos hc, if_pos hhM, firstBest_cons_eq _ _ _ _ hMc0.symm]
      · have hMh : rest.foldl (fun a c => max a (recFn c.2 false).1)
            (max h ((recFn t false).1)) = h := by
          rw [hMeq, max_eq_left hc]
        rw [if_neg (not_lt.mpr hc), if_neg (by rw [hMh]; exact lt_irrefl h)]

theorem minimaxLoop_min_snd (recFn : GameTree → Bool → Score × Move) :
    ∀ (cs : List (Move × GameTree)) (h : Score) (bm : Move),
      (minimaxLoop recFn false h bm cs).2
        = if cs.foldl (fun a c => min a (recFn c.2 true).1) h < h
          then firstBest (cs.foldl (fun a c => min a (recFn c.2 true).1) h)
                 (cs.map (fun c => (c.1, (recFn c.2 true).1)))
          else bm := by
  intro cs
  induction cs with
  | nil =>
    intro h bm
    simp [minimaxLoop]
  | cons c rest ih =>
    intro h bm
    obtain ⟨m, t⟩ := c
    rw [minimaxLoop_cons_min, ih]
    simp only [List.foldl_cons, List.map_cons]
    have hle : rest.foldl (fun a c => min a (recFn c.2 true).1) (min h ((recFn t true).1))
        ≤ min h ((recFn t true).1) := foldl_min_le _ _ _
    rcases lt_or_le (rest.foldl (fun a c => min a (recFn c.2 true).1) (min h ((recFn t true).1)))
        (min h ((recFn t true).1)) with hltM | hgeM
    · have hhM : rest.foldl (fun a c => min a (recFn c.2 true).1)
          (min h ((recFn t true).1)) < h := lt_of_lt_of_le hltM (min_le_left _ _)
      have hc0M : (recFn t true).1
          ≠ rest.foldl (fun a c => min a (recFn c.2 true).1) (min h ((recFn t true).1)) :=
        (ne_of_lt (lt_of_lt_of_le hltM (min_le_right _ _))).symm
      rw [if_pos hltM, if_pos hhM, firstBest_cons_ne _ _ _ _ hc0M]
    · have hMeq : rest.foldl (fun a c => min a (recFn c.2 true).1) (min h ((recFn t true).1))
          = min h ((recFn t true).1) := le_antisymm hle hgeM
      rw [if_neg (not_lt.mpr hgeM)]
      rcases lt_or_le ((recFn t true).1) h with hc | hc
      · have hMc0 : rest.foldl (fun a c => min a (recFn c.2 true).1)
            (min h ((recFn t true).1)) = (recFn t true).1 := by
          rw [hMeq, min_eq_right hc.le]
        have hhM : rest.foldl (fun a c => min a (recFn c.2 true).1)
            (min h ((recFn t true).1)) < h := by rw [hMc0]; exact hc
        rw [if_pos hc, if_pos hhM, firstBest_cons_eq _ _ _ _ hMc0.symm]
      · have hMh : rest.foldl (fun a c => min a (recFn c.2 true).1)
            (min h ((recFn t true).1)) = h := by
          rw [hMeq, min_eq_left hc]
        rw [if_neg (not_lt.mpr hc), if_neg (by rw [hMh]; exact lt_irrefl h)]

theorem minimax_node_max (d : Nat) (s : Score) (cs : List (Move × GameTree))
    (hemp : cs.isEmpty = false) :
    minimax (.node s cs) (d + 1) true
      = (bestScore true (childScores d true cs),
         if bestScore true (childScores d true cs) = ⊥ then (-1, -1)
         else firstBest (bestScore true (childScores d true cs)) (childScores d true cs)) := by
  have hloop : minimax (.node s cs) (d + 1) true
      = minimaxLoop (fun t b => minimax t d b) true ⊥ (-1, -1) cs := by
    simp [minimax, hemp]
  have hmap : cs.map (fun c => (c.1, ((fun t b => minimax t d b) c.2 false).1))
      = childScores d true cs := by
    simp [childScores]
  have hfold : cs.foldl (fun a c => max a (((fun t b => minimax t d b) c.2 false).1)) ⊥
      = bestScore true (childScores d true cs) := by
    simp [bestScore, childScores, List.foldl_map]
  rw [hloop]
  refine Prod.ext ?_ ?_
  · rw [minimaxLoop_max_fst]
    exact hfold
  · rw [minimaxLoop_max_snd, hfold, hmap]
    by_cases hM : bestScore true (childScores d true cs) = ⊥
    · rw [if_neg (by rw [hM]; exact lt_irrefl _), if_pos hM]
    · rw [if_pos (bot_lt_iff_ne_bot.mpr hM), if_neg hM]

theorem minimax_node_min (d : Nat) (s : Score) (cs : List (Move × GameTree))
    (hemp : cs.isEmpty = false) :
    minimax (.node s cs) (d + 1) false
      = (bestScore false (childScores d false cs),
         if bestScore false (childScores d false cs) = ⊤ then (-1, -1)
         else firstBest (bestScore false (childScores d false cs)) (childScores d false cs)) := by
  have hloop : minimax (.node s cs) (d + 1) false
      = minimaxLoop (fun t b => minimax t d b) false ⊤ (-1, -1) cs := by
    simp [minimax, hemp]
  have hmap : cs.map (fun c => (c.1, ((fun t b => minimax t d b) c.2 true).1))
      = childScores d false cs := by
    simp [childScores]
  have hfold : cs.foldl (fun a c => min a (((fun t b => minimax t d b) c.2 true).1)) ⊤
      = bestScore false (childScores d false cs) := by
    simp [bestScore, childScores, List.foldl_map]
  rw [hloop]
  refine Prod.ext ?_ ?_
  · rw [minimaxLoop_min_fst]
    exact hfold
  · rw [minimaxLoop_min_snd, hfold, hmap]
    by_cases hM : bestScore false (childScores d false cs) = ⊤
    · rw [if_neg (by rw [hM]; exact lt_irrefl _), if_pos hM]
    · rw [if_pos (lt_top_iff_ne_top.mpr hM), if_neg hM]

/-- **C5 counterexample.** At a depth-1 maximizing `minimax` node with a
single legal move whose child score is the `-inf` initialisation value,
the strictly-greatest child score is `-inf` and the first (only) move
attains it, yet the move kept and returned is the sentinel `(-1, -1)`,
not that first move. -/
theorem claim_C5_counterexample :
    (minimax (.node (qs 0) [(((2 : Int), (2 : Int)), .node ⊥ [])]) 1 true).2
      ≠ firstBest
          (bestScore true (childScores 0 true [(((2 : Int), (2 : Int)), .node ⊥ [])]))
          (childScores 0 true [(((2 : Int), (2 : Int)), .node ⊥ [])]) := by
  decide

/-- **C5 (amended).** At every internal node, `minimax` keeps the best
child with strict `>` (maximizing) / strict `<` (minimizing)
comparisons: the score returned is the greatest (least) of the reported
child scores, and the move returned is the first move in enumeration
order attaining that extreme *provided the extreme strictly improves on
the `-inf` (resp. `+inf`) loop initialisation*; when it does not (all
children report the initialisation value) the sentinel `(-1, -1)` is
kept.  In `alphabeta`, the same strict comparison governs the update: a
child whose reported score ties the running best never replaces the
running best score or move, in either polarity (below the cutoff
bounds). -/
theorem claim_C5_strict_first_move_selection_amended (d : Nat) (maxi : Bool) (s : Score)
    (cs : List (Move × GameTree))
    (recFn : GameTree → Score → Score → Bool → Score × MoveVal)
    (alpha beta highest : Score) (best : MoveVal) (m : Move) (t : GameTree)
    (rest : List (Move × GameTree)) :
    (cs.isEmpty = false →
      minimax (.node s cs) (d + 1) maxi
        = (bestScore maxi (childScores d maxi cs),
           if bestScore maxi (childScores d maxi cs)
               = (if maxi then (⊥ : Score) else ⊤) then (-1, -1)
           else firstBest (bestScore maxi (childScores d maxi cs)) (childScores d maxi cs)))
    ∧ ((recFn t alpha beta false).1 = highest → highest < beta →
        alphabetaLoop recFn true alpha beta highest best ((m, t) :: rest)
          = alphabetaLoop recFn true (max alpha highest) beta highest best rest)
    ∧ ((recFn t alpha beta true).1 = highest → alpha < highest →
        alphabetaLoop recFn false alpha beta highest best ((m, t) :: rest)
          = alphabetaLoop recFn false alpha (min beta highest) highest best rest) := by
  refine ⟨?_, ?_, ?_⟩
  · intro hemp
    cases maxi with
    | true => simpa using minimax_node_max d s cs hemp
    | false => simpa using minimax_node_min d s cs hemp
  · intro htie hlt
    simp only [alphabetaLoop, Bool.not_true, if_pos trivial, htie]
    rw [if_neg (lt_irrefl highest), if_neg (lt_irrefl highest),
      if_neg (not_le.mpr hlt)]
  · intro htie hlt
    simp only [alphabetaLoop, Bool.not_false, if_neg Bool.false_ne_true, htie]
    rw [if_neg (lt_irrefl highest), if_neg (lt_irrefl highest),
      if_neg (not_le.mpr hlt)]

theorem claim_C5_strict_first_move_selection_amended_witness :
    minimax (.node (qs 0) [(((0 : Int), (0 : Int)), .node (qs 7) []),
        (((1 : Int), (1 : Int)), .node (qs 7) [])]) 1 true = (qs 7, (0, 0)) ∧
    alphabetaLoop (fun _ _ _ _ => (qs 4, .mv (9, 9))) true ⊥ ⊤ (qs 4) (.mv (2, 2))
        [(((5 : Int), (5 : Int)), .node (qs 0) [])]
      = alphabetaLoop (fun _ _ _ _ => (qs 4, .mv (9, 9))) true (max ⊥ (qs 4)) ⊤ (qs 4)
          (.mv (2, 2)) [] := by
  constructor
  · have h := (claim_C5_strict_first_move_selection_amended 0 true (qs 0)
      [(((0 : Int), (0 : Int)), .node (qs 7) []), (((1 : Int), (1 : Int)), .node (qs 7) [])]
      (fun _ _ _ _ => (qs 0, .mv (0, 0))) ⊥ ⊤ ⊥ (.mv (0, 0)) (0, 0) (.node (qs 0) [])
      []).1 rfl
    rw [h]
    decide
  · exact (claim_C5_strict_first_move_selection_amended 0 true (qs 0) []
      (fun _ _ _ _ => (qs 4, .mv (9, 9))) ⊥ ⊤ (qs 4) (.mv (2, 2)) (5, 5) (.node (qs 0) [])
      []).2.1 rfl (by decide)

/-! ### Timeout discipline (C7, C8) -/

theorem minimaxTLoop_ok_of_rec
    (recT : GameTree → Bool → Nat → Except Unit ((Score × Move) × Nat))
    (recP : GameTree → Bool → Score × Move)
    (hrec : ∀ t b k, ∃ k', recT t b k = .ok ((recP t b), k')) (maxi : Bool) :
    ∀ (cs : List (Move × GameTree)) (h : Score) (bm : Move) (n : Nat),
      ∃ n', minimaxTLoop recT maxi h bm cs n
        = .ok ((minimaxLoop recP maxi h bm cs), n') := by
  intro cs
  induction cs with
  | nil => intro h bm n; exact ⟨n, rfl⟩
  | cons c rest ih =>
    intro h bm n
    obtain ⟨m, t⟩ := c
    cases maxi with
    | true =>
      obtain ⟨k', hk⟩ := hrec t false n
      by_cases hc : h < (recP t false).1
      · obtain ⟨n', hn⟩ := ih ((recP t false).1) m k'
        exact ⟨n', by simp [minimaxTLoop, minimaxLoop, hk, hc, hn]⟩
      · obtain ⟨n', hn⟩ := ih h bm k'
        exact ⟨n', by simp [minimaxTLoop, minimaxLoop, hk, hc, hn]⟩
    | false =>
      obtain ⟨k', hk⟩ := hrec t true n
      by_cases hc : (recP t true).1 < h
      · obtain ⟨n', hn⟩ := ih ((recP t true).1) m k'
        exact ⟨n', by simp [minimaxTLoop, minimaxLoop, hk, hc, hn]⟩
      · obtain ⟨n', hn⟩ := ih h bm k'
        exact ⟨n', by simp [minimaxTLoop, minimaxLoop, hk, hc, hn]⟩

theorem alphabetaTLoop_ok_of_rec
    (recT : GameTree → Score → Score → Bool → Nat → Except Unit ((Score × MoveVal) × Nat))
    (recP : GameTree → Score → Score → Bool → Score × MoveVal)
    (hrec : ∀ t a b fl k, ∃ k', recT t a b fl k = .ok ((recP t a b fl), k')) (maxi : Bool) :
    ∀ (cs : List (Move × GameTree)) (alpha beta h : Score) (bm : MoveVal) (n : Nat),
      ∃ n', alphabetaTLoop recT maxi alpha beta h bm cs n
        = .ok ((alphabetaLoop recP maxi alpha beta h bm cs), n') := by
  intro cs
  induction cs with
  | nil => intro alpha beta h bm n; exact ⟨n, rfl⟩
  | cons c rest ih =>
    intro alpha beta h bm n
    obtain ⟨m, t⟩ := c
    cases maxi with
    | true =>
      obtain ⟨k', hk⟩ := hrec t alpha beta false n
      by_cases hcut : beta ≤
          (if h < (recP t alpha beta false).1 then (recP t alpha beta false).1 else h)
      · exact ⟨k', by simp [alphabetaTLoop, alphabetaLoop, hk, hcut]⟩
      · obtain ⟨n', hn⟩ := ih (max alpha (recP t alpha beta false).1) beta
          (if h < (recP t alpha beta false).1 then (recP t alpha beta false).1 else h)
          (if h < (recP t alpha beta false).1 then MoveVal.mv m else bm) k'
        exact ⟨n', by simp [alphabetaTLoop, alphabetaLoop, hk, hcut, hn]⟩
    | false =>
      obtain ⟨k', hk⟩ := hrec t alpha beta true n
      by_cases hcut :
          (if (recP t alpha beta true).1 < h then (recP t alpha beta true).1 else h) ≤ alpha
      · exact ⟨k', by simp [alphabetaTLoop, alphabetaLoop, hk, hcut]⟩
      · obtain ⟨n', hn⟩ := ih alpha (min beta (recP t alpha beta true).1)
          (if (recP t alpha beta true).1 < h then (recP t alpha beta true).1 else h)
          (if (recP t alpha beta true).1 < h then MoveVal.nest m bm else bm) k'
        exact ⟨n', by simp [alphabetaTLoop, alphabetaLoop, hk, hcut, hn]⟩

theorem minimaxT_ok_of_clock (clock : Nat → ℚ) (th : ℚ) (hclk : ∀ k, th ≤ clock k) :
    ∀ (depth : Nat) (game : GameTree) (maxi : Bool) (n : Nat),
      ∃ n', minimaxT clock th game depth maxi n = .ok ((minimax game depth maxi), n') := by
  intro depth
  induction depth with
  | zero =>
    intro g maxi n
    cases g with
    | node s cs => exact ⟨n + 1, by simp [minimaxT, minimax, not_lt.mpr (hclk n)]⟩
  | succ d ih =>
    intro g maxi n
    cases g with
    | node s cs =>
      by_cases hemp : cs.isEmpty
      · exact ⟨n + 1, by simp [minimaxT, minimax, hemp, not_lt.mpr (hclk n)]⟩
      · obtain ⟨n', hn⟩ := minimaxTLoop_ok_of_rec (fun t b k => minimaxT clock th t d b k)
          (fun t b => minimax t d b) (fun t b k => ih t b k) maxi cs
          (if maxi then ⊥ else ⊤) (-1, -1) (n + 1)
        exact ⟨n', by simp [minimaxT, minimax, hemp, not_lt.mpr (hclk n), hn]⟩

theorem alphabetaT_ok_of_clock (clock : Nat → ℚ) (th : ℚ) (hclk : ∀ k, th ≤ clock k) :
    ∀ (depth : Nat) (game : GameTree) (alpha beta : Score) (maxi : Bool) (n : Nat),
      ∃ n', alphabetaT clock th game depth alpha beta maxi n
        = .ok ((alphabeta game depth alpha beta maxi), n') := by
  intro depth
  induction depth with
  | zero =>
    intro g alpha beta maxi n
    cases g with
    | node s cs => exact ⟨n + 1, by simp [alphabetaT, alphabeta, not_lt.mpr (hclk n)]⟩
  | succ d ih =>
    intro g alpha beta maxi n
    cases g with
    | node s cs =>
      by_cases hemp : cs.isEmpty
      · exact ⟨n + 1, by simp [alphabetaT, alphabeta, hemp, not_lt.mpr (hclk n)]⟩
      · obtain ⟨n', hn⟩ := alphabetaTLoop_ok_of_rec
          (fun t a b fl k => alphabetaT clock th t d a b fl k)
          (fun t a b fl => alphabeta t d a b fl) (fun t a b fl k => ih t a b fl k) maxi cs
          alpha beta (if maxi then ⊥ else ⊤) (.mv (-1, -1)) (n + 1)
        exact ⟨n', by simp [alphabetaT, alphabeta, hemp, not_lt.mpr (hclk n), hn]⟩

theorem minimaxTLoop_counter (clock : Nat → ℚ) (th : ℚ)
    (recT : GameTree → Bool → Nat → Except Unit ((Score × Move) × Nat))
    (hrec : ∀ t b k r k', recT t b k = .ok (r, k') →
      k < k' ∧ ∀ j, k ≤ j → j < k' → th ≤ clock j) (maxi : Bool) :
    ∀ (cs : List (Move × GameTree)) (h : Score) (bm : Move) (n : Nat)
      (r : Score × Move) (n' : Nat),
      minimaxTLoop recT maxi h bm cs n = .ok (r, n') →
      n ≤ n' ∧ ∀ j, n ≤ j → j < n' → th ≤ clock j := by
  intro cs
  induction cs with
  | nil =>
    intro h bm n r n' hok
    simp only [minimaxTLoop, Except.ok.injEq, Prod.mk.injEq] at hok
    obtain ⟨-, h2⟩ := hok
    subst h2
    exact ⟨le_refl n, fun j hj1 hj2 => absurd hj2 (by omega)⟩
  | cons c rest ih =>
    intro h bm n r n' hok
    obtain ⟨m, t⟩ := c
    cases hs : recT t (!maxi) n with
    | error e => simp [minimaxTLoop, hs] at hok
    | ok rr =>
      obtain ⟨r0, k'⟩ := rr
      obtain ⟨hk1, hk2⟩ := hrec t (!maxi) n r0 k' hs
      simp only [minimaxTLoop, hs] at hok
      have hcomb : ∀ (h2 : Score) (bm2 : Move),
          minimaxTLoop recT maxi h2 bm2 rest k' = .ok (r, n') →
          n ≤ n' ∧ ∀ j, n ≤ j → j < n' → th ≤ clock j := by
        intro h2 bm2 hrest
        obtain ⟨hr1, hr2⟩ := ih h2 bm2 k' r n' hrest
        refine ⟨le_trans hk1.le hr1, ?_⟩
        intro j hj1 hj2
        rcases lt_or_le j k' with hjk | hjk
        · exact hk2 j hj1 hjk
        · exact hr2 j hjk hj2
      cases maxi with
      | true =>
        by_cases hc : h < r0.1
        · exact hcomb _ _ (by simpa [hc] using hok)
        · exact hcomb _ _ (by simpa [hc] using hok)
      | false =>
        by_cases hc : r0.1 < h
        · exact hcomb _ _ (by simpa [hc] using hok)
        · exact hcomb _ _ (by simpa [hc] using hok)

theorem alphabetaTLoop_counter (clock : Nat → ℚ) (th : ℚ)
    (recT : GameTree → Score → Score → Bool → Nat → Except Unit ((Score × MoveVal) × Nat))
    (hrec : ∀ t a b fl k r k', recT t a b fl k = .ok (r, k') →
      k < k' ∧ ∀ j, k ≤ j → j < k' → th ≤ clock j) (maxi : Bool) :
    ∀ (cs : List (Move × GameTree)) (alpha beta h : Score) (bm : MoveVal) (n : Nat)
      (r : Score × MoveVal) (n' : Nat),
      alphabetaTLoop recT maxi alpha beta h bm cs n = .ok (r, n') →
      n ≤ n' ∧ ∀ j, n ≤ j → j < n' → th ≤ clock j := by
  intro cs
  induction cs with
  | nil =>
    intro alpha beta h bm n r n' hok
    simp only [alphabetaTLoop, Except.ok.injEq, Prod.mk.injEq] at hok
    obtain ⟨-, h2⟩ := hok
    subst h2
    exact ⟨le_refl n, fun j hj1 hj2 => absurd hj2 (by omega)⟩
  | cons c rest ih =>
    intro alpha beta h bm n r n' hok
    obtain ⟨m, t⟩ := c
    cases hs : recT t alpha beta (!maxi) n with
    | error e => simp [alphabetaTLoop, hs] at hok
    | ok rr =>
      obtain ⟨r0, k'⟩ := rr
      obtain ⟨hk1, hk2⟩ := hrec t alpha beta (!maxi) n r0 k' hs
      simp only [alphabetaTLoop, hs] at hok
      have hstop : ∀ j, n ≤ j → j < k' → th ≤ clock j := hk2
      have hcomb : ∀ (a2 b2 h2 : Score) (bm2 : MoveVal),
          alphabetaTLoop recT maxi a2 b2 h2 bm2 rest k' = .ok (r, n') →
          n ≤ n' ∧ ∀ j, n ≤ j → j < n' → th ≤ clock j := by
        intro a2 b2 h2 bm2 hrest
        obtain ⟨hr1, hr2⟩ := ih a2 b2 h2 bm2 k' r n' hrest
        refine ⟨le_trans hk1.le hr1, ?_⟩
        intro j hj1 hj2
        rcases lt_or_le j k' with hjk | hjk
        · exact hk2 j hj1 hjk
        · exact hr2 j hjk hj2
      cases maxi with
      | true =>
        by_cases hcut : beta ≤ (if h < r0.1 then r0.1 else h)
        · simp only [hcut, if_pos trivial, if_true, Except.ok.injEq, Prod.mk.injEq] at hok
          obtain ⟨-, h2⟩ := hok
          subst h2
          exact ⟨hk1.le, hstop⟩
        · exact hcomb _ _ _ _ (by simpa [hcut] using hok)
      | false =>
        by_cases hcut : (if r0.1 < h then r0.1 else h) ≤ alpha
        · simp only [hcut, if_neg Bool.false_ne_true, if_true, Except.ok.injEq,
            Prod.mk.injEq] at hok
          obtain ⟨-, h2⟩ := hok
          subst h2
          exact ⟨hk1.le, hstop⟩
        · exact hcomb _ _ _ _ (by simpa [hcut] using hok)

theorem minimaxT_counter (clock : Nat → ℚ) (th : ℚ) :
    ∀ (depth : Nat) (game : GameTree) (maxi : Bool) (n : Nat) (r : Score × Move) (n' : Nat),
      minimaxT clock th game depth maxi n = .ok (r, n') →
      n < n' ∧ ∀ j, n ≤ j → j < n' → th ≤ clock j := by
  intro depth
  induction depth with
  | zero =>
    intro g maxi n r n' hok
    cases g with
    | node s cs =>
      by_cases hclk : clock n < th
      · simp [minimaxT, hclk] at hok
      · simp only [minimaxT, if_neg hclk, Except.ok.injEq, Prod.mk.injEq] at hok
        obtain ⟨-, h2⟩ := hok
        subst h2
        refine ⟨Nat.lt_succ_self n, ?_⟩
        intro j hj1 hj2
        have hj : j = n := by omega
        subst hj
        exact not_lt.mp hclk
  | succ d ih =>
    intro g maxi n r n' hok
    cases g with
    | node s cs =>
      by_cases hclk : clock n < th
      · simp [minimaxT, hclk] at hok
      · by_cases hemp : cs.isEmpty
        · simp only [minimaxT, if_neg hclk, hemp, if_true, Except.ok.injEq,
            Prod.mk.injEq] at hok
          obtain ⟨-, h2⟩ := hok
          subst h2
          refine ⟨Nat.lt_succ_self n, ?_⟩
          intro j hj1 hj2
          have hj : j = n := by omega
          subst hj
          exact not_lt.mp hclk
        · simp only [minimaxT, if_neg hclk, hemp, Bool.false_eq_true, if_false] at hok
          obtain ⟨hl1, hl2⟩ := minimaxTLoop_counter clock th
            (fun t b k => minimaxT clock th t d b k)
            (fun t b k r0 k' hk => ih t b k r0 k' hk) maxi cs
            (if maxi then ⊥ else ⊤) (-1, -1) (n + 1) r n' hok
          refine ⟨lt_of_lt_of_le (Nat.lt_succ_self n) hl1, ?_⟩
          intro j hj1 hj2
          rcases eq_or_lt_of_le hj1 with hj | hj
          · subst hj
            exact not_lt.mp hclk
          · exact hl2 j hj hj2

theorem alphabetaT_counter (clock : Nat → ℚ) (th : ℚ) :
    ∀ (depth : Nat) (game : GameTree) (alpha beta : Score) (maxi : Bool) (n : Nat)
      (r : Score × MoveVal) (n' : Nat),
      alphabetaT clock th game depth alpha beta maxi n = .ok (r, n') →
      n < n' ∧ ∀ j, n ≤ j → j < n' → th ≤ clock j := by
  intro depth
  induction depth with
  | zero =>
    intro g alpha beta maxi n r n' hok
    cases g with
    | node s cs =>
      by_cases hclk : clock n < th
      · simp [alphabetaT, hclk] at hok
      · simp only [alphabetaT, if_neg hclk, Except.ok.injEq, Prod.mk.injEq] at hok
        obtain ⟨-, h2⟩ := hok
        subst h2
        refine ⟨Nat.lt_succ_self n, ?_⟩
        intro j hj1 hj2
        have hj : j = n := by omega
        subst hj
        exact not_lt.mp hclk
  | succ d ih =>
    intro g alpha beta maxi n r n' hok
    cases g with
    | node s cs =>
      by_cases hclk : clock n < th
      · simp [alphabetaT, hclk] at hok
      · by_cases hemp : cs.isEmpty
        · simp only [alphabetaT, if_neg hclk, hemp, if_true, Except.ok.injEq,
            Prod.mk.injEq] at hok
          obtain ⟨-, h2⟩ := hok
          subst h2
          refine ⟨Nat.lt_succ_self n, ?_⟩
          intro j hj1 hj2
          have hj : j = n := by omega
          subst hj
          exact not_lt.mp hclk
        · simp only [alphabetaT, if_neg hclk, hemp, Bool.false_eq_true, if_false] at hok
          obtain ⟨hl1, hl2⟩ := alphabetaTLoop_counter clock th
            (fun t a b fl k => alphabetaT clock th t d a b fl k)
            (fun t a b fl k r0 k' hk => ih t a b fl k r0 k' hk) maxi cs
            alpha beta (if maxi then ⊥ else ⊤) (.mv (-1, -1)) (n + 1) r n' hok
          refine ⟨lt_of_lt_of_le (Nat.lt_succ_self n) hl1, ?_⟩
          intro j hj1 hj2
          rcases eq_or_lt_of_le hj1 with hj | hj
          · subst hj
            exact not_lt.mp hclk
          · exact hl2 j hj hj2

theorem searchT_error_low (p : CustomPlayer) (clock : Nat → ℚ) (game : GameTree)
    (depth n : Nat) (h : clock n < p.TIMER_THRESHOLD) :
    searchT p clock game depth n = .error () := by
  have hmm : minimaxT clock p.TIMER_THRESHOLD game depth true n = .error () := by
    cases game with
    | node s cs => cases depth <;> simp [minimaxT, h]
  have hab : alphabetaT clock p.TIMER_THRESHOLD game depth ⊥ ⊤ true n = .error () := by
    cases game with
    | node s cs => cases depth <;> simp [alphabetaT, h]
  cases hm : p.method <;> simp [searchT, hmm, hab, hm, Except.map]

theorem searchT_counter (p : CustomPlayer) (clock : Nat → ℚ) (game : GameTree)
    (depth n : Nat) (r : Score × MoveVal) (n' : Nat)
    (hok : searchT p clock game depth n = .ok (r, n')) : n < n' := by
  cases hm : p.method with
  | minimax =>
    simp only [searchT, hm] at hok
    cases hs : minimaxT clock p.TIMER_THRESHOLD game depth true n with
    | error e => rw [hs] at hok; simp [Except.map] at hok
    | ok rr =>
      obtain ⟨r0, k'⟩ := rr
      rw [hs] at hok
      simp only [Except.map, Except.ok.injEq, Prod.mk.injEq] at hok
      obtain ⟨-, h2⟩ := hok
      exact h2 ▸ (minimaxT_counter clock p.TIMER_THRESHOLD depth game true n r0 k' hs).1
  | alphabeta =>
    simp only [searchT, hm] at hok
    exact (alphabetaT_counter clock p.TIMER_THRESHOLD depth game ⊥ ⊤ true n r n' hok).1

theorem iterDrive_total (p : CustomPlayer) (clock : Nat → ℚ) (game : GameTree) (N : Nat)
    (hN : ∀ k, N ≤ k → clock k < p.TIMER_THRESHOLD) :
    ∀ (fuel d n : Nat) (s : Score) (mv : MoveVal), 1 ≤ fuel → N < n + fuel →
      ∃ m, iterDrive p clock game fuel d n s mv = some m := by
  intro fuel
  induction fuel with
  | zero =>
    intro d n s mv h1 h2
    exact absurd h1 (by omega)
  | succ f ih =>
    intro d n s mv h1 h2
    by_cases hclk : clock n < p.TIMER_THRESHOLD
    · exact ⟨mv, by simp [iterDrive, searchT_error_low p clock game d n hclk]⟩
    · have hnN : n < N := by
        by_contra hcon
        push_neg at hcon
        exact hclk (hN n hcon)
      cases hs : searchT p clock game d n with
      | error e => exact ⟨mv, by simp [iterDrive, hs]⟩
      | ok rr =>
        obtain ⟨r0, n'⟩ := rr
        have hn' : n < n' := searchT_counter p clock game d n r0 n' hs
        have hf1 : 1 ≤ f := by omega
        have hf2 : N < n' + f := by omega
        by_cases hlt : s < r0.1
        · obtain ⟨m, hm⟩ := ih (d + 1) n' r0.1 r0.2 hf1 hf2
          exact ⟨m, by simp [iterDrive, hs, hlt, hm]⟩
        · obtain ⟨m, hm⟩ := ih (d + 1) n' s mv hf1 hf2
          exact ⟨m, by simp [iterDrive, hs, hlt, hm]⟩

theorem get_move_total (p : CustomPlayer) (clock : Nat → ℚ) (game : GameTree)
    (legal_moves : List Move) (N fuel : Nat)
    (hN : ∀ k, N ≤ k → clock k < p.TIMER_THRESHOLD) (hf : N < fuel) :
    ∃ mv, get_move p clock game legal_moves fuel = some mv := by
  by_cases hlm : legal_moves = []
  · exact ⟨.mv (-1, -1), by simp [get_move, hlm]⟩
  · by_cases hit : p.iterative
    · obtain ⟨m, hm⟩ := iterDrive_total p clock game N hN fuel 1 0 ⊥ (.mv (-1, -1))
        (by omega) (by omega)
      exact ⟨m, by simp [get_move, hlm, hit, hm]⟩
    · cases hs : searchT p clock game p.search_depth 0 with
      | error e => exact ⟨.mv (-1, -1), by simp [get_move, hlm, hit, hs]⟩
      | ok rr => exact ⟨rr.1.2, by simp [get_move, hlm, hit, hs]⟩

/-- **C7.** Every call of `minimax` and `alphabeta` compares, at its
entry and before expanding any node, the next `time_left()` reading to
`self.TIMER_THRESHOLD`: (1) if the reading is below the threshold the
call raises `Timeout` at once, returning no partial score/move (the
error carries nothing); (2) if no reading is ever below the threshold
the call returns normally with exactly the untimed search result; and
(3, 4) a `Timeout` can only arise when some reading is below the
threshold. -/
theorem claim_C7_timeout_raised_iff_below_threshold (clock : Nat → ℚ) (th : ℚ)
    (game : GameTree) (depth : Nat) (alpha beta : Score) (maxi : Bool) (n : Nat) :
    (clock n < th →
      minimaxT clock th game depth maxi n = .error ()
        ∧ alphabetaT clock th game depth alpha beta maxi n = .error ())
    ∧ ((∀ k, th ≤ clock k) →
        (∃ n', minimaxT clock th game depth maxi n = .ok ((minimax game depth maxi), n'))
          ∧ ∃ n', alphabetaT clock th game depth alpha beta maxi n
              = .ok ((alphabeta game depth alpha beta maxi), n'))
    ∧ (minimaxT clock th game depth maxi n = .error () → ∃ k, clock k < th)
    ∧ (alphabetaT clock th game depth alpha beta maxi n = .error () → ∃ k, clock k < th) := by
  refine ⟨?_, ?_, ?_, ?_⟩
  · intro h
    constructor
    · cases game with
      | node s cs => cases depth <;> simp [minimaxT, h]
    · cases game with
      | node s cs => cases depth <;> simp [alphabetaT, h]
  · intro hclk
    exact ⟨minimaxT_ok_of_clock clock th hclk depth game maxi n,
      alphabetaT_ok_of_clock clock th hclk depth game alpha beta maxi n⟩
  · intro herr
    by_contra hcon
    push_neg at hcon
    obtain ⟨n', hok⟩ := minimaxT_ok_of_clock clock th hcon depth game maxi n
    rw [herr] at hok
    exact Except.noConfusion hok
  · intro herr
    by_contra hcon
    push_neg at hcon
    obtain ⟨n', hok⟩ := alphabetaT_ok_of_clock clock th hcon depth game alpha beta maxi n
    rw [herr] at hok
    exact Except.noConfusion hok

theorem claim_C7_timeout_raised_iff_below_threshold_witness :
    minimaxT (fun _ => 0) 1 (.node (qs 2) []) 3 true 0 = .error ()
      ∧ ∃ n', minimaxT (fun _ => 5) 1 (.node (qs 2) []) 3 true 0
          = .ok ((minimax (.node (qs 2) []) 3 true), n') := by
  constructor
  · exact ((claim_C7_timeout_raised_iff_below_threshold (fun _ => 0) 1 (.node (qs 2) [])
      3 ⊥ ⊤ true 0).1 (by decide)).1
  · exact ((claim_C7_timeout_raised_iff_below_threshold (fun _ => 5) 1 (.node (qs 2) [])
      3 ⊥ ⊤ true 0).2.1 (fun k => by decide)).1

/-- **C8.** The `Timeout` cancellation is never intercepted inside the
recursion: (1, 2) whenever a (sub)call of `minimaxT`/`alphabetaT`
returns normally, every clock reading it consumed was at or above the
threshold — so a reading below the threshold anywhere inside a call
forces the whole call to propagate the cancellation; and (3) `get_move`
catches the cancellation at the top-level search boundary and, whenever
the clock eventually stays below the threshold, returns an ordinary
move value to its caller — never an error. -/
theorem claim_C8_timeout_caught_only_at_top_level (clock : Nat → ℚ) (th : ℚ)
    (p : CustomPlayer) (game : GameTree) (legal_moves : List Move)
    (depth n : Nat) (alpha beta : Score) (maxi : Bool) (N fuel : Nat) :
    (∀ r : (Score × Move) × Nat, minimaxT clock th game depth maxi n = .ok r →
      ∀ j, n ≤ j → j < r.2 → th ≤ clock j)
    ∧ (∀ r : (Score × MoveVal) × Nat,
        alphabetaT clock th game depth alpha beta maxi n = .ok r →
      ∀ j, n ≤ j → j < r.2 → th ≤ clock j)
    ∧ ((∀ k, N ≤ k → clock k < p.TIMER_THRESHOLD) → N < fuel →
        ∃ mv, get_move p clock game legal_moves fuel = some mv) := by
  refine ⟨?_, ?_, ?_⟩
  · intro r hok
    exact (minimaxT_counter clock th depth game maxi n r.1 r.2 hok).2
  · intro r hok
    exact (alphabetaT_counter clock th depth game alpha beta maxi n r.1 r.2 hok).2
  · intro hN hf
    exact get_move_total p clock game legal_moves N fuel hN hf

theorem claim_C8_timeout_caught_only_at_top_level_witness :
    (∃ mv, get_move ⟨2, true, .alphabeta, 1⟩ (fun _ => 0) (.node (qs 2) [])
        [((0 : Int), (0 : Int))] 1 = some mv)
      ∧ (1 : ℚ) ≤ 5 := by
  constructor
  · exact (claim_C8_timeout_caught_only_at_top_level (fun _ => 0) 1 ⟨2, true, .alphabeta, 1⟩
      (.node (qs 2) []) [((0 : Int), (0 : Int))] 0 0 ⊥ ⊤ true 0 1).2.2
      (fun k hk => by decide) (by decide)
  · exact (claim_C8_timeout_caught_only_at_top_level (fun _ => 5) 1 ⟨2, true, .alphabeta, 1⟩
      (.node (qs 2) []) [((0 : Int), (0 : Int))] 0 0 ⊥ ⊤ true 0 1).1
      ((qs 2, (-1, -1)), 1) rfl 0 (le_refl 0) (by decide)
